import Mathlib

/-
Verification of the kernel-level logging subsystem ("klogbuf") ring buffer.

The module keeps a circular byte buffer of size `buffer_size` with a write
cursor `buffer_head` and a count `buffer_available` of valid bytes, guarded
by a reader-writer semaphore.  The shallow embedding below models the three
data operations of the driver:

  * `klog_write`     — the device write path (`klog_write` in the C source):
                       truncate the input to `buffer_size`, copy it into the
                       circular buffer at `buffer_head` (one or two
                       `copy_from_user` calls, the second when the copy wraps),
                       then advance `buffer_head` and `buffer_available`.
  * `klog_read`      — the device read path: positional read at `*offset`
                       relative to the start of the logical window, one or two
                       `copy_to_user` calls.
  * `klog_proc_show` — the /proc dump path: copies the whole logical window
                       (two-branch start computation) into a temporary buffer.

Machine integers (`size_t`) are modelled as `Nat`; all index arithmetic in the
C code stays far below any overflow for the sizes involved, and subtractions
are guarded the same way the C code guards them.  `copy_from_user` /
`copy_to_user` faults are modelled by Boolean fault oracles (`f1`, `f2`, one
per potential copy call); a zero-length copy never faults, a faulted copy
transfers nothing, and the function returns `-EFAULT` (modelled as
`KResult.fault`).
-/

namespace Klog

/-- Shared state of the driver: capacity, backing byte array, write cursor
and count of valid bytes (`buffer_size`, `klog_buffer`, `buffer_head`,
`buffer_available` in the C source). Bytes are modelled as `Nat`. -/
structure KlogState where
  buffer_size : Nat
  klog_buffer : List Nat
  buffer_head : Nat
  buffer_available : Nat
deriving DecidableEq, Repr

/-- Well-formedness of the driver state: positive capacity, backing array of
exactly that length, cursor inside the array, count at most the capacity. -/
def KlogState.WF (st : KlogState) : Prop :=
  0 < st.buffer_size ∧ st.klog_buffer.length = st.buffer_size ∧
    st.buffer_head < st.buffer_size ∧ st.buffer_available ≤ st.buffer_size

instance (st : KlogState) : Decidable st.WF := by
  unfold KlogState.WF; exact inferInstance

/-- State after `klog_init`: a zero-filled buffer of the requested size with
`buffer_head = 0` and `buffer_available = 0`. -/
def klog_init (size : Nat) : KlogState :=
  { buffer_size := size
    klog_buffer := List.replicate size 0
    buffer_head := 0
    buffer_available := 0 }

/-- Overwrite `buf[pos .. pos+xs.length)` with `xs` (a `memcpy`/user-copy into
the buffer; every call site keeps `pos + xs.length ≤ buf.length`). -/
def copyAt (buf : List Nat) (pos : Nat) (xs : List Nat) : List Nat :=
  buf.take pos ++ xs ++ buf.drop (pos + xs.length)

/-- Whether a user-space copy of `len` bytes faults, given its fault oracle.
A zero-length `copy_from_user`/`copy_to_user` never faults. -/
def copyFaults (fail : Bool) (len : Nat) : Bool :=
  fail && len != 0

/-- Read `n` bytes of the backing buffer starting at index `pos`
(a `memcpy`/`copy_to_user` out of the buffer). -/
def readRange (st : KlogState) (pos n : Nat) : List Nat :=
  (st.klog_buffer.drop pos).take n

/-- Return value of a driver call: either `-EFAULT` or a success value. -/
inductive KResult (α : Type) where
  | fault : KResult α
  | ok (val : α) : KResult α
deriving DecidableEq, Repr

/-- Result of the device write path: state after the call, file position
after the call, and either the fault or the returned byte count. -/
structure WriteResult where
  state : KlogState
  pos : Nat
  out : KResult Nat
deriving DecidableEq, Repr

/-- Result of the device read path: state after the call, file position after
the call, and either the fault or the bytes copied to the caller. -/
structure ReadResult where
  state : KlogState
  pos : Nat
  out : KResult (List Nat)
deriving DecidableEq, Repr

/-- Device write path (`klog_write` in the C source).  `bytes_to_write =
min(len, buffer_size)`; the copy starts at `buffer_head` and is split in two
when it would run past the end of the array; afterwards `buffer_head` advances
modulo `buffer_size` and `buffer_available` saturates at `buffer_size`.
`pos` is the `*offset` file position, `f1`/`f2` the fault oracles of the two
potential `copy_from_user` calls. -/
def klog_write (st : KlogState) (data : List Nat) (pos : Nat) (f1 f2 : Bool) :
    WriteResult :=
  let bytes_to_write := min data.length st.buffer_size
  if st.buffer_head + bytes_to_write > st.buffer_size then
    let contiguous_bytes := st.buffer_size - st.buffer_head
    if copyFaults f1 contiguous_bytes then ⟨st, pos, .fault⟩
    else
      let st1 : KlogState :=
        { st with klog_buffer :=
            copyAt st.klog_buffer st.buffer_head (data.take contiguous_bytes) }
      if copyFaults f2 (bytes_to_write - contiguous_bytes) then ⟨st1, pos, .fault⟩
      else
        ⟨{ st1 with
            klog_buffer := copyAt st1.klog_buffer 0
              ((data.drop contiguous_bytes).take (bytes_to_write - contiguous_bytes))
            buffer_head := (st.buffer_head + bytes_to_write) % st.buffer_size
            buffer_available := min (st.buffer_available + bytes_to_write) st.buffer_size },
          pos + bytes_to_write, .ok bytes_to_write⟩
  else
    if copyFaults f1 bytes_to_write then ⟨st, pos, .fault⟩
    else
      ⟨{ st with
          klog_buffer := copyAt st.klog_buffer st.buffer_head (data.take bytes_to_write)
          buffer_head := (st.buffer_head + bytes_to_write) % st.buffer_size
          buffer_available := min (st.buffer_available + bytes_to_write) st.buffer_size },
        pos + bytes_to_write, .ok bytes_to_write⟩

/-- Device read path (`klog_read` in the C source).  Returns EOF (empty) when
`buffer_available = 0` or `pos ≥ buffer_available`; otherwise copies
`bytes_to_read = min(len, buffer_available)` bytes starting at
`(buffer_head + buffer_size - buffer_available + pos) % buffer_size`, in two
pieces when the run wraps, and advances the file position. -/
def klog_read (st : KlogState) (len pos : Nat) (f1 f2 : Bool) : ReadResult :=
  if st.buffer_available = 0 then ⟨st, pos, .ok []⟩
  else
    let bytes_to_read := min len st.buffer_available
    if pos < st.buffer_available then
      let read_pos :=
        (st.buffer_head + st.buffer_size - st.buffer_available + pos) % st.buffer_size
      if read_pos + bytes_to_read > st.buffer_size then
        let contiguous_bytes := st.buffer_size - read_pos
        if copyFaults f1 contiguous_bytes then ⟨st, pos, .fault⟩
        else if copyFaults f2 (bytes_to_read - contiguous_bytes) then ⟨st, pos, .fault⟩
        else
          ⟨st, pos + bytes_to_read,
            .ok (readRange st read_pos contiguous_bytes ++
                 readRange st 0 (bytes_to_read - contiguous_bytes))⟩
      else
        if copyFaults f1 bytes_to_read then ⟨st, pos, .fault⟩
        else ⟨st, pos + bytes_to_read, .ok (readRange st read_pos bytes_to_read)⟩
    else ⟨st, pos, .ok []⟩

/-- The /proc dump path (`klog_proc_show` in the C source): the bytes it
copies into `temp_buffer`.  Contiguous case when `buffer_head ≥
buffer_available`, two-piece reassembly otherwise. -/
def klog_proc_show (st : KlogState) : List Nat :=
  if st.buffer_head ≥ st.buffer_available then
    readRange st (st.buffer_head - st.buffer_available) st.buffer_available
  else
    readRange st (st.buffer_size - (st.buffer_available - st.buffer_head))
        (st.buffer_available - st.buffer_head) ++
      readRange st 0 st.buffer_head

/-- Fault-free append: the state left by a successful `klog_write`. -/
def appendOp (st : KlogState) (data : List Nat) : KlogState :=
  (klog_write st data 0 false false).state

/-- Fault-free positional read: the bytes returned by a successful
`klog_read` with file position `off` and requested count `len`. -/
def readAt (st : KlogState) (off len : Nat) : List Nat :=
  match (klog_read st len off false false).out with
  | .ok bs => bs
  | .fault => []

/-- Fault-free dump: the bytes produced by the /proc snapshot path. -/
def dump (st : KlogState) : List Nat :=
  klog_proc_show st

/-- Run a sequence of fault-free appends in order. -/
def runAppends (st : KlogState) (ds : List (List Nat)) : KlogState :=
  ds.foldl appendOp st

/-- One operation of the driver surface, with fault oracles where the
operation performs user copies. -/
inductive KlogOp where
  | write (data : List Nat) (f1 f2 : Bool)
  | read (len pos : Nat) (f1 f2 : Bool)
  | dump
deriving DecidableEq, Repr

/-- State transition of one operation: writes leave the state of
`klog_write`, reads leave the state of `klog_read`, the dump path never
touches the shared state. -/
def klog_step (st : KlogState) (op : KlogOp) : KlogState :=
  match op with
  | .write d f1 f2 => (klog_write st d 0 f1 f2).state
  | .read len pos f1 f2 => (klog_read st len pos f1 f2).state
  | .dump => st

/-- The logical window of valid bytes, from the specification's data-model
invariant: the last `buffer_available` bytes written, ending at
`buffer_head` and wrapping backward through the storage — i.e. the last
`buffer_available` entries of the buffer viewed as starting at
`buffer_head`. -/
def windowBytes (st : KlogState) : List Nat :=
  (st.klog_buffer.rotate st.buffer_head).drop (st.buffer_size - st.buffer_available)

/-- The last `k` entries of a byte sequence. -/
def lastBytes (k : Nat) (xs : List Nat) : List Nat :=
  xs.drop (xs.length - k)

/-- The backing buffer left by a fault-free `klog_write` (both copy branches
of the C write path, without the cursor updates). -/
def writeBuf (st : KlogState) (d : List Nat) : List Nat :=
  if st.buffer_head + min d.length st.buffer_size > st.buffer_size then
    copyAt (copyAt st.klog_buffer st.buffer_head
        (d.take (st.buffer_size - st.buffer_head))) 0
      ((d.drop (st.buffer_size - st.buffer_head)).take
        (min d.length st.buffer_size - (st.buffer_size - st.buffer_head)))
  else
    copyAt st.klog_buffer st.buffer_head (d.take (min d.length st.buffer_size))

theorem copyAt_length {buf xs : List Nat} {pos : Nat} (h : pos + xs.length ≤ buf.length) :
    (copyAt buf pos xs).length = buf.length := by
  simp [copyAt]
  omega

theorem klog_write_ff (st : KlogState) (d : List Nat) (pos : Nat) :
    klog_write st d pos false false =
      ⟨{ st with
          klog_buffer := writeBuf st d
          buffer_head := (st.buffer_head + min d.length st.buffer_size) % st.buffer_size
          buffer_available :=
            min (st.buffer_available + min d.length st.buffer_size) st.buffer_size },
        pos + min d.length st.buffer_size, .ok (min d.length st.buffer_size)⟩ := by
  simp only [klog_write, writeBuf, copyFaults, Bool.false_and, Bool.false_eq_true, if_false]
  split <;> rfl

theorem writeBuf_length (st : KlogState) (d : List Nat)
    (h1 : st.klog_buffer.length = st.buffer_size) (h2 : st.buffer_head < st.buffer_size) :
    (writeBuf st d).length = st.buffer_size := by
  have hnL : min d.length st.buffer_size ≤ st.buffer_size := Nat.min_le_right _ _
  have hnd : min d.length st.buffer_size ≤ d.length := Nat.min_le_left _ _
  unfold writeBuf
  split
  next hgt =>
    have hb1 : (copyAt st.klog_buffer st.buffer_head
        (d.take (st.buffer_size - st.buffer_head))).length = st.buffer_size := by
      rw [copyAt_length (by simp only [List.length_take]; omega)]
      exact h1
    rw [copyAt_length (by simp only [List.length_take, List.length_drop, hb1]; omega), hb1]
  next hle =>
    rw [copyAt_length (by simp only [List.length_take]; omega)]
    exact h1

theorem writeBuf_rotate (st : KlogState) (d : List Nat)
    (h1 : st.klog_buffer.length = st.buffer_size) (h2 : st.buffer_head < st.buffer_size) :
    (writeBuf st d).rotate st.buffer_head =
      d.take (min d.length st.buffer_size) ++
        (st.klog_buffer.rotate st.buffer_head).drop (min d.length st.buffer_size) := by
  have hnL : min d.length st.buffer_size ≤ st.buffer_size := Nat.min_le_right _ _
  have hnd : min d.length st.buffer_size ≤ d.length := Nat.min_le_left _ _
  have hrot : st.klog_buffer.rotate st.buffer_head =
      st.klog_buffer.drop st.buffer_head ++ st.klog_buffer.take st.buffer_head :=
    List.rotate_eq_drop_append_take (by omega)
  unfold writeBuf
  split
  next hgt =>
    -- wrapping copy: two copy_from_user calls
    have hcn : st.buffer_size - st.buffer_head ≤ min d.length st.buffer_size := by omega
    have htc : (d.take (st.buffer_size - st.buffer_head)).length
        = st.buffer_size - st.buffer_head := by
      simp only [List.length_take]; omega
    have hte : ((d.drop (st.buffer_size - st.buffer_head)).take
        (min d.length st.buffer_size - (st.buffer_size - st.buffer_head))).length
        = min d.length st.buffer_size - (st.buffer_size - st.buffer_head) := by
      simp only [List.length_take, List.length_drop]; omega
    have hb1 : copyAt st.klog_buffer st.buffer_head
        (d.take (st.buffer_size - st.buffer_head)) =
        st.klog_buffer.take st.buffer_head ++ d.take (st.buffer_size - st.buffer_head) := by
      simp only [copyAt, htc]
      rw [List.drop_eq_nil_of_le (by omega), List.append_nil]
    have hW : copyAt (copyAt st.klog_buffer st.buffer_head
        (d.take (st.buffer_size - st.buffer_head))) 0
        ((d.drop (st.buffer_size - st.buffer_head)).take
          (min d.length st.buffer_size - (st.buffer_size - st.buffer_head))) =
        ((d.drop (st.buffer_size - st.buffer_head)).take
            (min d.length st.buffer_size - (st.buffer_size - st.buffer_head)) ++
          (st.klog_buffer.take st.buffer_head).drop
            (min d.length st.buffer_size - (st.buffer_size - st.buffer_head))) ++
          d.take (st.buffer_size - st.buffer_head) := by
      rw [hb1]
      simp only [copyAt, hte, List.take_zero, List.nil_append, Nat.zero_add]
      rw [List.drop_append_of_le_length (by simp only [List.length_take]; omega),
        List.append_assoc]
    rw [hW]
    have hlenA : ((d.drop (st.buffer_size - st.buffer_head)).take
          (min d.length st.buffer_size - (st.buffer_size - st.buffer_head)) ++
        (st.klog_buffer.take st.buffer_head).drop
          (min d.length st.buffer_size - (st.buffer_size - st.buffer_head))).length
        = st.buffer_head := by
      simp only [List.length_append, List.length_take, List.length_drop, hte]; omega
    have hRHS : (st.klog_buffer.rotate st.buffer_head).drop (min d.length st.buffer_size) =
        (st.klog_buffer.take st.buffer_head).drop
          (min d.length st.buffer_size - (st.buffer_size - st.buffer_head)) := by
      rw [hrot, List.drop_append_eq_append_drop,
        List.drop_eq_nil_of_le (by simp only [List.length_drop, h1]; omega),
        List.nil_append, List.length_drop, h1]
    rw [List.rotate_eq_drop_append_take
        (by simp only [List.length_append, List.length_take, List.length_drop, hte, htc]
            omega),
      List.drop_left' hlenA, List.take_left' hlenA, hRHS, ← List.append_assoc]
    congr 1
    have hsplit : min d.length st.buffer_size =
        (st.buffer_size - st.buffer_head) +
          (min d.length st.buffer_size - (st.buffer_size - st.buffer_head)) := by omega
    conv_rhs => rw [hsplit]
    rw [List.take_add]
  next hle =>
    -- contiguous copy: a single copy_from_user call
    have htl : (d.take (min d.length st.buffer_size)).length
        = min d.length st.buffer_size := by
      simp only [List.length_take]; omega
    have hE : copyAt st.klog_buffer st.buffer_head (d.take (min d.length st.buffer_size)) =
        st.klog_buffer.take st.buffer_head ++
          (d.take (min d.length st.buffer_size) ++
            st.klog_buffer.drop (st.buffer_head + min d.length st.buffer_size)) := by
      simp only [copyAt, htl, List.append_assoc]
    have hlenT : (st.klog_buffer.take st.buffer_head).length = st.buffer_head := by
      simp only [List.length_take, h1]; omega
    have hRHS : (st.klog_buffer.rotate st.buffer_head).drop (min d.length st.buffer_size) =
        st.klog_buffer.drop (st.buffer_head + min d.length st.buffer_size) ++
          st.klog_buffer.take st.buffer_head := by
      rw [hrot, List.drop_append_of_le_length (by simp only [List.length_drop, h1]; omega),
        List.drop_drop]
    rw [hE,
      List.rotate_eq_drop_append_take
        (by simp only [List.length_append, List.length_take, List.length_drop, h1, htl]
            omega),
      List.drop_left' hlenT, List.take_left' hlenT, hRHS, List.append_assoc]

theorem length_windowBytes (st : KlogState) (h1 : st.klog_buffer.length = st.buffer_size)
    (h3 : st.buffer_available ≤ st.buffer_size) :
    (windowBytes st).length = st.buffer_available := by
  simp only [windowBytes, List.length_drop, List.length_rotate, h1]
  omega

theorem appendOp_eq (st : KlogState) (d : List Nat) :
    appendOp st d =
      { st with
        klog_buffer := writeBuf st d
        buffer_head := (st.buffer_head + min d.length st.buffer_size) % st.buffer_size
        buffer_available :=
          min (st.buffer_available + min d.length st.buffer_size) st.buffer_size } := by
  unfold appendOp
  rw [klog_write_ff]

/-- Evolution of the logical window across one fault-free write: the new
window is the last `buffer_size` bytes of the old window followed by the
(truncated) input. -/
theorem windowBytes_appendOp (st : KlogState) (d : List Nat) (hWF : st.WF) :
    windowBytes (appendOp st d) =
      lastBytes st.buffer_size (windowBytes st ++ d.take (min d.length st.buffer_size)) := by
  obtain ⟨h0, h1, h2, h3⟩ := hWF
  have hnL : min d.length st.buffer_size ≤ st.buffer_size := Nat.min_le_right _ _
  have hnd : min d.length st.buffer_size ≤ d.length := Nat.min_le_left _ _
  have hWlen : (writeBuf st d).length = st.buffer_size := writeBuf_length st d h1 h2
  have hRlen : (st.klog_buffer.rotate st.buffer_head).length = st.buffer_size := by
    simp only [List.length_rotate, h1]
  have hlen1 : (d.take (min d.length st.buffer_size)).length
      = min d.length st.buffer_size := by
    simp only [List.length_take]; omega
  rw [appendOp_eq]
  unfold windowBytes lastBytes
  simp only
  have e1 := List.rotate_mod (writeBuf st d)
    (st.buffer_head + min d.length st.buffer_size)
  rw [hWlen] at e1
  rw [e1, ← List.rotate_rotate, writeBuf_rotate st d h1 h2]
  have e2 : (d.take (min d.length st.buffer_size) ++
        (st.klog_buffer.rotate st.buffer_head).drop (min d.length st.buffer_size)).rotate
          (min d.length st.buffer_size)
      = (st.klog_buffer.rotate st.buffer_head).drop (min d.length st.buffer_size) ++
          d.take (min d.length st.buffer_size) := by
    rw [List.rotate_eq_drop_append_take
        (by simp only [List.length_append, hlen1, List.length_drop, hRlen]; omega),
      List.drop_left' hlen1, List.take_left' hlen1]
  rw [e2]
  have e3 : ((st.klog_buffer.rotate st.buffer_head).drop
        (st.buffer_size - st.buffer_available) ++
      d.take (min d.length st.buffer_size)).length - st.buffer_size
      = st.buffer_available + min d.length st.buffer_size - st.buffer_size := by
    simp only [List.length_append, List.length_drop, hRlen, hlen1]; omega
  rw [e3,
    List.drop_append_of_le_length (n := st.buffer_size -
      min (st.buffer_available + min d.length st.buffer_size) st.buffer_size)
      (by simp only [List.length_drop, hRlen]; omega),
    List.drop_append_of_le_length (by simp only [List.length_drop, hRlen]; omega),
    List.drop_drop, List.drop_drop]
  congr 2
  omega

theorem windowBytes_init (size : Nat) : windowBytes (klog_init size) = [] := by
  unfold windowBytes klog_init
  simp only
  rw [List.rotate_zero, List.drop_eq_nil_of_le (by simp)]

theorem lastBytes_append_lastBytes (k : Nat) (xs ys : List Nat) :
    lastBytes k (lastBytes k xs ++ ys) = lastBytes k (xs ++ ys) := by
  unfold lastBytes
  rw [List.drop_append_eq_append_drop, List.drop_append_eq_append_drop, List.drop_drop]
  congr 2 <;> simp only [List.length_append, List.length_drop] <;> omega

theorem WF_appendOp (st : KlogState) (d : List Nat) (hWF : st.WF) : (appendOp st d).WF := by
  obtain ⟨h0, h1, h2, h3⟩ := hWF
  rw [appendOp_eq]
  exact ⟨h0, writeBuf_length st d h1 h2, Nat.mod_lt _ h0, Nat.min_le_right _ _⟩

theorem buffer_size_appendOp (st : KlogState) (d : List Nat) :
    (appendOp st d).buffer_size = st.buffer_size := by
  rw [appendOp_eq]

theorem available_appendOp (st : KlogState) (d : List Nat) :
    (appendOp st d).buffer_available =
      min (st.buffer_available + min d.length st.buffer_size) st.buffer_size := by
  rw [appendOp_eq]

/-- Master invariant of a run of fault-free appends: well-formedness and the
capacity are preserved, and the window becomes the last `buffer_size` bytes
of the old window followed by the concatenated inputs, provided no single
input exceeds the capacity. -/
theorem windowBytes_runAppends (ds : List (List Nat)) (st : KlogState) (hWF : st.WF)
    (hds : ∀ d ∈ ds, d.length ≤ st.buffer_size) :
    (runAppends st ds).WF ∧ (runAppends st ds).buffer_size = st.buffer_size ∧
      windowBytes (runAppends st ds) =
        lastBytes st.buffer_size (windowBytes st ++ ds.flatten) := by
  induction ds generalizing st with
  | nil =>
    refine ⟨hWF, rfl, ?_⟩
    show windowBytes st = _
    rw [List.flatten_nil, List.append_nil]
    unfold lastBytes
    rw [length_windowBytes st hWF.2.1 hWF.2.2.2, Nat.sub_eq_zero_of_le hWF.2.2.2,
      List.drop_zero]
  | cons d ds ih =>
    have hd : d.length ≤ st.buffer_size := hds d (by simp)
    have hWFa := WF_appendOp st d hWF
    have hsz := buffer_size_appendOp st d
    have hds2 : ∀ e ∈ ds, e.length ≤ (appendOp st d).buffer_size := by
      intro e he
      rw [hsz]
      exact hds e (by simp [he])
    obtain ⟨w1, w2, w3⟩ := ih (appendOp st d) hWFa hds2
    simp only [runAppends, List.foldl_cons] at w1 w2 w3 ⊢
    refine ⟨w1, by rw [w2, hsz], ?_⟩
    rw [w3, hsz, windowBytes_appendOp st d hWF,
      Nat.min_eq_left hd, List.take_length, lastBytes_append_lastBytes,
      List.append_assoc, List.flatten_cons]

/-- The /proc dump path copies exactly the logical window. -/
theorem klog_proc_show_eq_windowBytes (st : KlogState) (hWF : st.WF) :
    klog_proc_show st = windowBytes st := by
  obtain ⟨h0, h1, h2, h3⟩ := hWF
  have hrot : st.klog_buffer.rotate st.buffer_head =
      st.klog_buffer.drop st.buffer_head ++ st.klog_buffer.take st.buffer_head :=
    List.rotate_eq_drop_append_take (by omega)
  unfold klog_proc_show windowBytes readRange
  rw [hrot]
  split
  next hge =>
    rw [List.drop_append_eq_append_drop, List.drop_drop]
    have hnil : st.klog_buffer.drop
        (st.buffer_head + (st.buffer_size - st.buffer_available)) = [] :=
      List.drop_eq_nil_of_le (by rw [h1]; omega)
    rw [hnil, List.nil_append, List.length_drop, h1, List.drop_take]
    congr 1
    · omega
    · congr 1
      omega
  next hlt =>
    rw [List.drop_append_of_le_length (by rw [List.length_drop, h1]; omega),
      List.drop_drop, List.drop_zero]
    congr 1
    have hidx : st.buffer_size - (st.buffer_available - st.buffer_head) =
        st.buffer_head + (st.buffer_size - st.buffer_available) := by omega
    rw [hidx, List.take_of_length_le (by rw [List.length_drop, h1]; omega)]

/-- The positional-read path at offset 0 with request `buffer_available`
computes the same bytes as the /proc dump path. -/
theorem readAt_zero_available (st : KlogState) (hWF : st.WF) :
    readAt st 0 st.buffer_available = klog_proc_show st := by
  obtain ⟨h0, h1, h2, h3⟩ := hWF
  by_cases ha : st.buffer_available = 0
  · simp [readAt, klog_read, klog_proc_show, readRange, ha]
  · have hapos : 0 < st.buffer_available := Nat.pos_of_ne_zero ha
    unfold readAt klog_read
    rw [if_neg ha, if_pos hapos]
    simp only [Nat.min_self, Nat.add_zero]
    by_cases hge : st.buffer_available ≤ st.buffer_head
    · have hrp : (st.buffer_head + st.buffer_size - st.buffer_available) % st.buffer_size
          = st.buffer_head - st.buffer_available := by
        have e : st.buffer_head + st.buffer_size - st.buffer_available
            = (st.buffer_head - st.buffer_available) + st.buffer_size := by omega
        rw [e, Nat.add_mod_right, Nat.mod_eq_of_lt (by omega)]
      rw [hrp, if_neg (by omega :
        ¬ (st.buffer_head - st.buffer_available + st.buffer_available > st.buffer_size))]
      simp only [copyFaults, Bool.false_and, Bool.false_eq_true, if_false]
      unfold klog_proc_show
      rw [if_pos (by omega : st.buffer_head ≥ st.buffer_available)]
    · have hlt : st.buffer_head < st.buffer_available := by omega
      have hrp : (st.buffer_head + st.buffer_size - st.buffer_available) % st.buffer_size
          = st.buffer_head + st.buffer_size - st.buffer_available :=
        Nat.mod_eq_of_lt (by omega)
      rw [hrp]
      by_cases hz : st.buffer_head = 0
      · rw [if_neg (by omega :
          ¬ (st.buffer_head + st.buffer_size - st.buffer_available +
              st.buffer_available > st.buffer_size))]
        simp only [copyFaults, Bool.false_and, Bool.false_eq_true, if_false]
        unfold klog_proc_show
        rw [if_neg (by omega : ¬ st.buffer_head ≥ st.buffer_available)]
        unfold readRange
        rw [hz]
        simp only [Nat.sub_zero, Nat.zero_add, List.take_zero, List.append_nil]
      · rw [if_pos (by omega :
          st.buffer_head + st.buffer_size - st.buffer_available +
            st.buffer_available > st.buffer_size)]
        simp only [copyFaults, Bool.false_and, Bool.false_eq_true, if_false]
        unfold klog_proc_show
        rw [if_neg (by omega : ¬ st.buffer_head ≥ st.buffer_available)]
        have i1 : st.buffer_size -
            (st.buffer_head + st.buffer_size - st.buffer_available)
            = st.buffer_available - st.buffer_head := by omega
        have i2 : st.buffer_available - (st.buffer_available - st.buffer_head)
            = st.buffer_head := by omega
        have i3 : st.buffer_head + st.buffer_size - st.buffer_available
            = st.buffer_size - (st.buffer_available - st.buffer_head) := by omega
        rw [i1, i2, i3]

/-- The read path never assigns the shared state: every branch of
`klog_read` returns the incoming state. -/
theorem klog_read_state (st : KlogState) (len pos : Nat) (f1 f2 : Bool) :
    (klog_read st len pos f1 f2).state = st := by
  simp only [klog_read]
  repeat' split
  all_goals rfl

/-- Any write call — faulted or not — preserves well-formedness, never
shrinks `buffer_available`, and never changes the capacity. -/
theorem klog_write_WF (st : KlogState) (d : List Nat) (pos : Nat) (f1 f2 : Bool)
    (hWF : st.WF) :
    (klog_write st d pos f1 f2).state.WF ∧
      st.buffer_available ≤ (klog_write st d pos f1 f2).state.buffer_available ∧
      (klog_write st d pos f1 f2).state.buffer_size = st.buffer_size := by
  obtain ⟨h0, h1, h2, h3⟩ := hWF
  have hin : (copyAt st.klog_buffer st.buffer_head
      (d.take (st.buffer_size - st.buffer_head))).length = st.buffer_size := by
    rw [copyAt_length (by simp only [List.length_take]; omega)]
    exact h1
  simp only [klog_write]
  split
  next hgt =>
    split
    next =>
      exact ⟨⟨h0, h1, h2, h3⟩, Nat.le_refl _, rfl⟩
    next =>
      split
      next =>
        exact ⟨⟨h0, hin, h2, h3⟩, Nat.le_refl _, rfl⟩
      next =>
        refine ⟨⟨h0, ?_, Nat.mod_lt _ h0, Nat.min_le_right _ _⟩, ?_, rfl⟩
        · show (copyAt _ 0 _).length = st.buffer_size
          rw [copyAt_length
              (by rw [hin]; simp only [List.length_take, List.length_drop]; omega),
            hin]
        · show st.buffer_available ≤
            min (st.buffer_available + min d.length st.buffer_size) st.buffer_size
          omega
  next hle =>
    split
    next =>
      exact ⟨⟨h0, h1, h2, h3⟩, Nat.le_refl _, rfl⟩
    next =>
      refine ⟨⟨h0, ?_, Nat.mod_lt _ h0, Nat.min_le_right _ _⟩, ?_, rfl⟩
      · show (copyAt _ _ _).length = st.buffer_size
        rw [copyAt_length (by simp only [List.length_take]; omega)]
        exact h1
      · show st.buffer_available ≤
          min (st.buffer_available + min d.length st.buffer_size) st.buffer_size
        omega

/-- A faulted write returns with the cursor pair and the file position
untouched (only storage may hold the first segment of a wrapping copy). -/
theorem klog_write_fault_frame (st : KlogState) (d : List Nat) (pos : Nat) (f1 f2 : Bool) :
    (klog_write st d pos f1 f2).out = .fault →
      (klog_write st d pos f1 f2).state.buffer_head = st.buffer_head ∧
        (klog_write st d pos f1 f2).state.buffer_available = st.buffer_available ∧
        (klog_write st d pos f1 f2).pos = pos := by
  simp only [klog_write]
  split
  next =>
    split
    next => exact fun _ => ⟨rfl, rfl, rfl⟩
    next =>
      split
      next => exact fun _ => ⟨rfl, rfl, rfl⟩
      next => exact fun h => nomatch h
  next =>
    split
    next => exact fun _ => ⟨rfl, rfl, rfl⟩
    next => exact fun h => nomatch h

/-- One driver step preserves well-formedness and never shrinks
`buffer_available`. -/
theorem klog_step_WF (st : KlogState) (op : KlogOp) (hWF : st.WF) :
    (klog_step st op).WF ∧ st.buffer_available ≤ (klog_step st op).buffer_available := by
  cases op with
  | write d f1 f2 =>
    exact ⟨(klog_write_WF st d 0 f1 f2 hWF).1, (klog_write_WF st d 0 f1 f2 hWF).2.1⟩
  | read len pos f1 f2 =>
    show ((klog_read st len pos f1 f2).state).WF ∧
      st.buffer_available ≤ ((klog_read st len pos f1 f2).state).buffer_available
    rw [klog_read_state]
    exact ⟨hWF, Nat.le_refl _⟩
  | dump => exact ⟨hWF, Nat.le_refl _⟩

/-- Any sequence of driver steps preserves well-formedness and never shrinks
`buffer_available`. -/
theorem foldl_klog_step_WF (ops : List KlogOp) (st : KlogState) (hWF : st.WF) :
    (List.foldl klog_step st ops).WF ∧
      st.buffer_available ≤ (List.foldl klog_step st ops).buffer_available := by
  induction ops generalizing st with
  | nil => exact ⟨hWF, Nat.le_refl _⟩
  | cons op ops ih =>
    obtain ⟨hw, hm⟩ := klog_step_WF st op hWF
    obtain ⟨hw2, hm2⟩ := ih (klog_step st op) hw
    exact ⟨hw2, Nat.le_trans hm hm2⟩

/-- C10: appending a zero-length input returns 0 and is a complete no-op on
a well-formed store: state and file position are both returned unchanged,
whatever the fault oracles say (a zero-length copy cannot fault). -/
theorem C10_empty_append_noop (st : KlogState) (pos : Nat) (f1 f2 : Bool) (hWF : st.WF) :
    klog_write st [] pos f1 f2 = ⟨st, pos, .ok 0⟩ := by
  obtain ⟨h0, h1, h2, h3⟩ := hWF
  simp only [klog_write, List.length_nil, Nat.zero_min, Nat.add_zero]
  rw [if_neg (by omega : ¬ st.buffer_head > st.buffer_size)]
  simp only [copyFaults, bne_self_eq_false, Bool.and_false, Bool.false_eq_true, if_false]
  rw [Nat.mod_eq_of_lt h2, Nat.min_eq_left h3]
  simp only [copyAt, List.take_nil, List.append_nil, List.length_nil, Nat.add_zero,
    List.take_append_drop]

/-- C10 witness: the zero-length append on a concrete fresh store, with a
fault oracle raised, still returns `(state, pos, ok 0)` unchanged. -/
theorem C10_empty_append_noop_witness :
    (klog_init 3).WF ∧ klog_write (klog_init 3) [] 7 true false = ⟨klog_init 3, 7, .ok 0⟩ :=
  ⟨by decide, C10_empty_append_noop (klog_init 3) 7 true false (by decide)⟩

/-- C1: code-bug exhibit.  On the store reached by appending `[10, 20]` to a
fresh 4-byte store (`available = 2`, window `[10, 20]`), the positional read
at `offset = 1` with `maxLen = 2` returns the two bytes `[20, 0]`: the code
computes `bytes_to_read = min(maxLen, available)` without subtracting the
offset, while the claim's `n = min(maxLen, available - offset)` is 1, so the
second byte is read from beyond the logical window. -/
theorem C1_readAt_overrun_exhibit :
    readAt (appendOp (klog_init 4) [10, 20]) 1 2 = [20, 0] ∧
      (appendOp (klog_init 4) [10, 20]).buffer_available = 2 ∧
      windowBytes (appendOp (klog_init 4) [10, 20]) = [10, 20] ∧
      min 2 ((appendOp (klog_init 4) [10, 20]).buffer_available - 1) = 1 := by decide

/-- C2: code-bug exhibit.  On the store reached by appending `[7, 8]` to a
fresh 4-byte store, the read at `offset = 1`, `maxLen = 3` returns a byte
value (0, a never-written storage cell) that occurs nowhere in the logical
window, so the read path exposes stale bytes outside the window. -/
theorem C2_stale_byte_exhibit :
    0 ∈ readAt (appendOp (klog_init 4) [7, 8]) 1 3 ∧
      0 ∉ windowBytes (appendOp (klog_init 4) [7, 8]) := by decide

/-- C3: counterexample to "append writes the last `n = min(len, capacity)`
bytes of data".  Appending `[1, 2, 3]` to a fresh 2-byte store stores the
first two bytes `[1, 2]` (the code copies from the start of the user buffer),
not the trailing two bytes `[2, 3]` the claim would put at `head = 0`. -/
theorem C3_counterexample :
    (appendOp (klog_init 2) [1, 2, 3]).klog_buffer = [1, 2] ∧
      lastBytes 2 [1, 2, 3] = [2, 3] ∧
      (appendOp (klog_init 2) [1, 2, 3]).klog_buffer ≠ lastBytes 2 [1, 2, 3] := by decide

/-- C3 (amended): a fault-free append writes the FIRST
`n = min(len(data), capacity)` bytes of data into storage starting at `head`
with wraparound to index 0 (stated as: the storage viewed from `head` starts
with those `n` bytes followed by the surviving old bytes), then sets
`head = (head + n) mod capacity` and `available = min(available + n,
capacity)`, and returns `n`; it never fails for a well-formed input. -/
theorem C3_append_first_bytes (st : KlogState) (d : List Nat) (pos : Nat) (hWF : st.WF) :
    (klog_write st d pos false false).out = .ok (min d.length st.buffer_size) ∧
      (klog_write st d pos false false).state.buffer_head =
        (st.buffer_head + min d.length st.buffer_size) % st.buffer_size ∧
      (klog_write st d pos false false).state.buffer_available =
        min (st.buffer_available + min d.length st.buffer_size) st.buffer_size ∧
      (klog_write st d pos false false).state.klog_buffer.rotate st.buffer_head =
        d.take (min d.length st.buffer_size) ++
          (st.klog_buffer.rotate st.buffer_head).drop (min d.length st.buffer_size) := by
  obtain ⟨h0, h1, h2, h3⟩ := hWF
  rw [klog_write_ff]
  exact ⟨rfl, rfl, rfl, writeBuf_rotate st d h1 h2⟩

/-- C3 witness: the amended append specification evaluated on a concrete
fresh 4-byte store and the input `[9]`. -/
theorem C3_append_first_bytes_witness :
    (klog_init 4).WF ∧
      ((klog_write (klog_init 4) [9] 0 false false).out = .ok 1 ∧
        (klog_write (klog_init 4) [9] 0 false false).state.buffer_head = 1 ∧
        (klog_write (klog_init 4) [9] 0 false false).state.buffer_available = 1 ∧
        (klog_write (klog_init 4) [9] 0 false false).state.klog_buffer.rotate 0 =
          [9, 0, 0, 0]) :=
  ⟨by decide, C3_append_first_bytes (klog_init 4) [9] 0 (by decide)⟩

/-- C4: for every finite sequence of appends on a freshly initialized store
whose total input length is at most the (positive) capacity, a subsequent
dump returns exactly the concatenation of all appended byte sequences in
append order. -/
theorem C4_dump_concat (cap : Nat) (ds : List (List Nat)) (hcap : 0 < cap)
    (hlen : (ds.map List.length).sum ≤ cap) :
    dump (runAppends (klog_init cap) ds) = ds.flatten := by
  have hWF0 : (klog_init cap).WF := ⟨hcap, by simp [klog_init], hcap, Nat.zero_le _⟩
  have hds : ∀ d ∈ ds, d.length ≤ (klog_init cap).buffer_size := by
    intro d hd
    exact Nat.le_trans
      (List.single_le_sum (fun x _ => Nat.zero_le x) _ (List.mem_map_of_mem List.length hd))
      hlen
  obtain ⟨w1, w2, w3⟩ := windowBytes_runAppends ds (klog_init cap) hWF0 hds
  unfold dump
  rw [klog_proc_show_eq_windowBytes _ w1, w3, windowBytes_init, List.nil_append]
  unfold lastBytes
  rw [Nat.sub_eq_zero_of_le (by rw [List.length_flatten]; exact hlen), List.drop_zero]

/-- C4 witness: two appends totalling the capacity of a fresh 2-byte store;
the dump is their concatenation. -/
theorem C4_dump_concat_witness :
    0 < 2 ∧ (([[1], [2]] : List (List Nat)).map List.length).sum ≤ 2 ∧
      dump (runAppends (klog_init 2) [[1], [2]]) = ([[1], [2]] : List (List Nat)).flatten :=
  ⟨by decide, by decide, C4_dump_concat 2 [[1], [2]] (by decide) (by decide)⟩

/-- C5: counterexample to the drop-oldest claim for arbitrary append
sequences.  A single append of `[1, 2, 3]` to a fresh 2-byte store (total
input 3 > capacity 2) leaves a dump of `[1, 2]` — the code truncates an
oversized write to its FIRST `capacity` bytes — whereas the last 2 bytes of
the concatenated history are `[2, 3]`. -/
theorem C5_counterexample :
    2 < (([[1, 2, 3]] : List (List Nat)).map List.length).sum ∧
      dump (runAppends (klog_init 2) [[1, 2, 3]]) = [1, 2] ∧
      lastBytes 2 ([[1, 2, 3]] : List (List Nat)).flatten = [2, 3] ∧
      dump (runAppends (klog_init 2) [[1, 2, 3]]) ≠
        lastBytes 2 ([[1, 2, 3]] : List (List Nat)).flatten := by decide

/-- C5 (amended): for every finite sequence of appends on a freshly
initialized store in which EACH INDIVIDUAL append is at most the (positive)
capacity and whose total length exceeds the capacity, a subsequent dump
returns exactly the last `capacity` bytes of the concatenated history
(drop-oldest). -/
theorem C5_dump_drop_oldest (cap : Nat) (ds : List (List Nat)) (hcap : 0 < cap)
    (hds : ∀ d ∈ ds, d.length ≤ cap) (htot : cap < (ds.map List.length).sum) :
    dump (runAppends (klog_init cap) ds) = lastBytes cap ds.flatten := by
  have hWF0 : (klog_init cap).WF := ⟨hcap, by simp [klog_init], hcap, Nat.zero_le _⟩
  have hds2 : ∀ d ∈ ds, d.length ≤ (klog_init cap).buffer_size := fun d hd => hds d hd
  obtain ⟨w1, w2, w3⟩ := windowBytes_runAppends ds (klog_init cap) hWF0 hds2
  unfold dump
  rw [klog_proc_show_eq_windowBytes _ w1, w3, windowBytes_init, List.nil_append]
  exact rfl

/-- C5 witness: appends `[1, 2]` then `[3]` on a fresh 2-byte store (each at
most the capacity, total 3 > 2); the dump is the last 2 bytes `[2, 3]`. -/
theorem C5_dump_drop_oldest_witness :
    0 < 2 ∧ (∀ d ∈ ([[1, 2], [3]] : List (List Nat)), d.length ≤ 2) ∧
      2 < (([[1, 2], [3]] : List (List Nat)).map List.length).sum ∧
      dump (runAppends (klog_init 2) [[1, 2], [3]]) =
        lastBytes 2 ([[1, 2], [3]] : List (List Nat)).flatten :=
  ⟨by decide, by decide, by decide,
    C5_dump_drop_oldest 2 [[1, 2], [3]] (by decide) (by decide) (by decide)⟩

/-- C6: the snapshot path's two-branch start-of-window computation yields
exactly the bytes of `readAt(0, available)`, which uses the single
`(head + capacity - available + offset) mod capacity` formula: the two call
sites converge on every well-formed state. -/
theorem C6_snapshot_eq_readAt (st : KlogState) (hWF : st.WF) :
    klog_proc_show st = readAt st 0 st.buffer_available :=
  (readAt_zero_available st hWF).symm

/-- C6 witness: a concrete wrapped state (capacity 3, window `[2, 3, 4]`
straddling the array boundary) on which both paths agree. -/
theorem C6_snapshot_eq_readAt_witness :
    (runAppends (klog_init 3) [[1, 2], [3, 4]]).WF ∧
      klog_proc_show (runAppends (klog_init 3) [[1, 2], [3, 4]]) =
        readAt (runAppends (klog_init 3) [[1, 2], [3, 4]]) 0
          (runAppends (klog_init 3) [[1, 2], [3, 4]]).buffer_available :=
  ⟨by decide, C6_snapshot_eq_readAt _ (by decide)⟩

/-- C7: counterexample to "a failed copy leaves the store state identical".
On the state reached by appending `[5]` to a fresh 2-byte store
(`head = 1`), a write of `[6, 7]` wraps; letting the first `copy_from_user`
succeed and the second fault returns `-EFAULT` with `head`/`available`
untouched, but storage has already changed from `[5, 0]` to `[5, 6]`. -/
theorem C7_counterexample :
    klog_write (appendOp (klog_init 2) [5]) [6, 7] 0 false true =
      ⟨{ buffer_size := 2, klog_buffer := [5, 6],
         buffer_head := 1, buffer_available := 1 }, 0, .fault⟩ ∧
      (appendOp (klog_init 2) [5]).klog_buffer = [5, 0] ∧
      (klog_write (appendOp (klog_init 2) [5]) [6, 7] 0 false true).state.klog_buffer ≠
        (appendOp (klog_init 2) [5]).klog_buffer := by decide

/-- C7 (amended): a faulted user-space copy propagates the fault as the
error result; a faulted read leaves the entire store state (and the file
position) unchanged, and a faulted write leaves `head`, `available` and the
file position unchanged — but a wrapping write whose second copy faults may
leave its already-copied first segment in storage. -/
theorem C7_fault_frame :
    (∀ (st : KlogState) (len pos : Nat) (f1 f2 : Bool),
      (klog_read st len pos f1 f2).state = st ∧
        ((klog_read st len pos f1 f2).out = .fault →
          (klog_read st len pos f1 f2).pos = pos)) ∧
    (∀ (st : KlogState) (d : List Nat) (pos : Nat) (f1 f2 : Bool),
      (klog_write st d pos f1 f2).out = .fault →
        (klog_write st d pos f1 f2).state.buffer_head = st.buffer_head ∧
          (klog_write st d pos f1 f2).state.buffer_available = st.buffer_available ∧
          (klog_write st d pos f1 f2).pos = pos) := by
  refine ⟨fun st len pos f1 f2 => ⟨klog_read_state st len pos f1 f2, ?_⟩,
    fun st d pos f1 f2 => klog_write_fault_frame st d pos f1 f2⟩
  simp only [klog_read]
  repeat' split
  all_goals first
  | exact fun _ => rfl
  | exact fun h => nomatch h

/-- C7 witness: the fault-frame theorem applied to the concrete faulting
wrapped write of the counterexample state. -/
theorem C7_fault_frame_witness :
    (klog_write (appendOp (klog_init 2) [5]) [6, 7] 0 false true).out = .fault ∧
      ((klog_write (appendOp (klog_init 2) [5]) [6, 7] 0 false true).state.buffer_head =
          (appendOp (klog_init 2) [5]).buffer_head ∧
        (klog_write (appendOp (klog_init 2) [5]) [6, 7] 0 false true).state.buffer_available =
          (appendOp (klog_init 2) [5]).buffer_available ∧
        (klog_write (appendOp (klog_init 2) [5]) [6, 7] 0 false true).pos = 0) :=
  ⟨by decide, C7_fault_frame.2 (appendOp (klog_init 2) [5]) [6, 7] 0 false true (by decide)⟩

/-- C8: every operation sequence (writes with arbitrary fault oracles,
reads, dumps) preserves the state invariant `head < capacity` and
`available ≤ capacity` and never decreases `available`; one append moves
`available` to `min(available + min(len, capacity), capacity)`, i.e. it
grows with appends until it saturates at the capacity. -/
theorem C8_invariant_available_monotone (st : KlogState) (ops : List KlogOp)
    (d : List Nat) (hWF : st.WF) :
    (List.foldl klog_step st ops).WF ∧
      st.buffer_available ≤ (List.foldl klog_step st ops).buffer_available ∧
      (appendOp st d).buffer_available =
        min (st.buffer_available + min d.length st.buffer_size) st.buffer_size :=
  ⟨(foldl_klog_step_WF ops st hWF).1, (foldl_klog_step_WF ops st hWF).2,
    available_appendOp st d⟩

/-- C8 witness: a concrete mixed operation sequence (append, read, dump,
and a faulted append) on a fresh 2-byte store. -/
theorem C8_invariant_available_monotone_witness :
    (klog_init 2).WF ∧
      ((List.foldl klog_step (klog_init 2)
          [.write [1] false false, .read 1 0 false false, .dump,
            .write [4, 5] true false]).WF ∧
        (klog_init 2).buffer_available ≤
          (List.foldl klog_step (klog_init 2)
            [.write [1] false false, .read 1 0 false false, .dump,
              .write [4, 5] true false]).buffer_available ∧
        (appendOp (klog_init 2) [9]).buffer_available =
          min ((klog_init 2).buffer_available + min [9].length (klog_init 2).buffer_size)
            (klog_init 2).buffer_size) :=
  ⟨by decide, C8_invariant_available_monotone (klog_init 2)
    [.write [1] false false, .read 1 0 false false, .dump, .write [4, 5] true false]
    [9] (by decide)⟩

/-- C9: the read path is pure with respect to the store: it returns the
shared state unchanged (as does the dump path), so a second `readAt` with
the same arguments and no intervening write — i.e. run on the state a first
read left behind — returns exactly the same bytes. -/
theorem C9_read_pure (st : KlogState) (off len : Nat) (f1 f2 : Bool) :
    (klog_read st len off f1 f2).state = st ∧
      readAt ((klog_read st len off f1 f2).state) off len = readAt st off len ∧
      klog_step st .dump = st := by
  refine ⟨klog_read_state st len off f1 f2, ?_, rfl⟩
  rw [klog_read_state st len off f1 f2]

end Klog
